import Mathlib

/-!
# Verification of the badge PDF generator

A shallow embedding of `src/generate_badges.py`: CSV record loading,
grid-geometry computation, the two pagination policies of
`generate_badges_pdf`, and the entity classification in `main`, together
with theorems settling the specification claims.

Conventions of the embedding:
* Python `float` arithmetic on page dimensions is modelled over `ℚ`
  (all quantities of interest are exact ratios of millimetre values);
  `int(a // b)` on nonnegative reals is `Int.floor` of the exact quotient.
* Python `%` and `//` on integers are floored (`Int.fmod` / `Int.fdiv`).
* A Python `dict` is an insertion-ordered association list; assignment to
  an existing key overwrites in place, a fresh key is appended at the end.
* A raised exception (`KeyError`, `ZeroDivisionError`) is modelled by an
  error value (`Except.error`, the `PdfResult.crash` constructor): the
  function produces no output file.
-/

/-- A CSV row as produced by `csv.DictReader`: the fields present in the
row, keyed by column name. -/
abbrev Row : Type := List (String × String)

/-- Value stored for one entity by `load_entities`. -/
structure EntityInfo where
  entity_type : String
  display_name : String
  deriving DecidableEq, Repr

/-- Value stored for one participant by `load_participants`. -/
structure Participant where
  participant_id : String
  name : String
  deriving DecidableEq, Repr

/-- Python `dict` lookup `d.get(k)` on an insertion-ordered association
list (keys are unique in any list built by `dictInsert`). -/
def dictGet {α : Type} (d : List (String × α)) (k : String) : Option α :=
  match d with
  | [] => none
  | (k2, v) :: rest => if k2 = k then some v else dictGet rest k

/-- Python `dict` assignment `d[k] = v`: overwrite the first binding of
`k` in place, or append a fresh binding at the end. -/
def dictInsert {α : Type} (d : List (String × α)) (k : String) (v : α) :
    List (String × α) :=
  match d with
  | [] => [(k, v)]
  | (k2, v2) :: rest =>
      if k2 = k then (k2, v) :: rest else (k2, v2) :: dictInsert rest k v

/-- `defaultdict(list)` append `d[k].append(x)`: extend the binding of `k`
in place, or append a fresh singleton binding at the end. -/
def dictAppend {α : Type} (d : List (String × List α)) (k : String) (x : α) :
    List (String × List α) :=
  match d with
  | [] => [(k, [x])]
  | (k2, l) :: rest =>
      if k2 = k then (k2, l ++ [x]) :: rest else (k2, l) :: dictAppend rest k x

/-- Python `str.strip()`: drop whitespace from both ends, modelled on the
code-point list. -/
def pyStrip (s : String) : String :=
  String.mk
    (((s.toList.dropWhile Char.isWhitespace).reverse.dropWhile
        Char.isWhitespace).reverse)

/-- The error raised when a row lacks a required column
(Python `KeyError`; the spec calls it `MissingKeyError`). -/
inductive LoadError where
  | missingKey (column : String)
  deriving DecidableEq, Repr

/-- One step of `load_entities`: `entity_id = row['entity_id'].strip()`
(raising on a missing key), every other field via
`row.get(field, '').strip()`, `display_name` preferring a non-empty
`team_name` over `institution_name`. -/
def parseEntityRow (row : Row) : Except LoadError (String × EntityInfo) :=
  match dictGet row "entity_id" with
  | none => .error (.missingKey "entity_id")
  | some v =>
      let entity_type := pyStrip ((dictGet row "entity_type").getD "")
      let team_name := pyStrip ((dictGet row "team_name").getD "")
      let institution_name := pyStrip ((dictGet row "institution_name").getD "")
      let display_name := if team_name ≠ "" then team_name else institution_name
      .ok (pyStrip v, ⟨entity_type, display_name⟩)

/-- The row loop of `load_entities`, threading the dictionary being built. -/
def loadEntitiesAux (acc : List (String × EntityInfo)) :
    List Row → Except LoadError (List (String × EntityInfo))
  | [] => .ok acc
  | row :: rest =>
      match parseEntityRow row with
      | .error e => .error e
      | .ok (k, info) => loadEntitiesAux (dictInsert acc k info) rest

/-- `load_entities`: build the `entity_id → EntityInfo` dictionary,
failing on the first row without an `entity_id` field. -/
def load_entities (rows : List Row) :
    Except LoadError (List (String × EntityInfo)) :=
  loadEntitiesAux [] rows

/-- One step of `load_participants`: the key is mandatory, the other two
fields default to the empty string, all stripped. -/
def parseParticipantRow (row : Row) : Except LoadError (String × Participant) :=
  match dictGet row "entity_id" with
  | none => .error (.missingKey "entity_id")
  | some v =>
      .ok (pyStrip v,
           ⟨pyStrip ((dictGet row "participant_id").getD ""),
            pyStrip ((dictGet row "name").getD "")⟩)

/-- The row loop of `load_participants`, grouping by `entity_id`. -/
def loadParticipantsAux (acc : List (String × List Participant)) :
    List Row → Except LoadError (List (String × List Participant))
  | [] => .ok acc
  | row :: rest =>
      match parseParticipantRow row with
      | .error e => .error e
      | .ok (k, p) => loadParticipantsAux (dictAppend acc k p) rest

/-- `load_participants`: group participant rows by `entity_id`, failing on
the first row without an `entity_id` field. -/
def load_participants (rows : List Row) :
    Except LoadError (List (String × List Participant)) :=
  loadParticipantsAux [] rows

/-- The grid parameters derived inside `generate_badges_pdf`
(lines 127–140 of the source). -/
structure Geometry where
  usableWidth : ℚ
  usableHeight : ℚ
  cols : ℤ
  rows : ℤ
  badgesPerPage : ℤ
  hSpacing : ℚ
  vSpacing : ℚ
  deriving DecidableEq, Repr

/-- The geometry computation of `generate_badges_pdf`, translated from
lines 127–140: usable area, floored column/row counts
(`int(usable_width // badge_width)`), `badges_per_page = cols * rows`,
and centring spacing guarded by `cols > 1` / `rows > 1`. -/
def computeGeometry (pageWidth pageHeight margin badgeWidth badgeHeight
    footerHeight : ℚ) : Geometry :=
  let usable_width := pageWidth - 2 * margin
  let usable_height := pageHeight - 2 * margin - footerHeight
  let cols : ℤ := ⌊usable_width / badgeWidth⌋
  let rows : ℤ := ⌊usable_height / badgeHeight⌋
  let badges_per_page := cols * rows
  let total_badge_width := (cols : ℚ) * badgeWidth
  let total_badge_height := (rows : ℚ) * badgeHeight
  let h_spacing := if cols > 1 then (usable_width - total_badge_width) / ((cols : ℚ) + 1) else 0
  let v_spacing := if rows > 1 then (usable_height - total_badge_height) / ((rows : ℚ) + 1) else 0
  ⟨usable_width, usable_height, cols, rows, badges_per_page, h_spacing, v_spacing⟩

/-- The geometry as the specification words it (§4.2): a second
definition built from the spec's formulas, to be compared with
`computeGeometry`. -/
def specGeometry (pageWidth pageHeight margin badgeWidth badgeHeight
    footerReserve : ℚ) : Geometry :=
  let usableWidth := pageWidth - 2 * margin
  let usableHeight := pageHeight - 2 * margin - footerReserve
  let columns : ℤ := ⌊usableWidth / badgeWidth⌋
  let rows : ℤ := ⌊usableHeight / badgeHeight⌋
  { usableWidth := usableWidth
    usableHeight := usableHeight
    cols := columns
    rows := rows
    badgesPerPage := columns * rows
    hSpacing :=
      if columns > 1 then (usableWidth - (columns : ℚ) * badgeWidth) / ((columns : ℚ) + 1) else 0
    vSpacing :=
      if rows > 1 then (usableHeight - (rows : ℚ) * badgeHeight) / ((rows : ℚ) + 1) else 0 }

/-- The position computation of `draw_badge` (lines 165–175): grid cell
from the badge index, then `(x, y_from_top, y)` where `y` is the
bottom-left-origin coordinate handed to the canvas. Returns `none` when
`cols = 0`, where Python raises `ZeroDivisionError` at
`badge_index % cols`. -/
def drawBadgePos (g : Geometry) (pageHeight margin badgeWidth badgeHeight
    footerHeight : ℚ) (badgeIndex : ℕ) : Option (ℚ × ℚ × ℚ) :=
  if g.cols = 0 then none
  else
    let col := Int.fmod (badgeIndex : ℤ) g.cols
    let row := Int.fdiv (badgeIndex : ℤ) g.cols
    let x := margin + g.hSpacing + (col : ℚ) * (badgeWidth + g.hSpacing)
    let yFromTop := margin + footerHeight + g.vSpacing + (row : ℚ) * (badgeHeight + g.vSpacing)
    let y := pageHeight - yFromTop - badgeHeight
    some (x, yFromTop, y)

/-- The name-truncation step of `draw_badge` (lines 188–190):
`name[:22] + "..."` when the name exceeds 25 characters. -/
def truncateName (s : String) : String :=
  if s.length > 25 then String.mk (s.toList.take 22) ++ "..." else s

/-- Outcome of one call to `generate_badges_pdf`. -/
inductive PdfResult (α : Type) where
  /-- The empty-input guard fired: no file is created. -/
  | skipped : PdfResult α
  /-- The file was saved with the given pages. -/
  | file : α → PdfResult α
  /-- `draw_badge` raised `ZeroDivisionError` (`cols = 0`): no file saved. -/
  | crash : PdfResult α
  deriving DecidableEq, Repr

/-- A page of the Per-entity (delegations) policy: the footer drawn on the
page (`entity_id`, `display_name`) and the badges drawn on it, each tagged
with the `entity_id` of the loop iteration that drew it. -/
abbrev EPage : Type := (String × String) × List (String × Participant)

/-- The participant loop of the `group_all_together` branch
(lines 201–212): `badge_index >= badges_per_page` closes the page and
resets the counter, then the badge is drawn (raising when `cols = 0`).
State: completed pages, badges on the open page, `badge_index`. -/
def groupedLoop (cols bpp : ℤ) :
    List Participant → List (List Participant) → List Participant → ℤ →
    Option (List (List Participant) × List Participant × ℤ)
  | [], pages, current, idx => some (pages, current, idx)
  | p :: ps, pages, current, idx =>
      if idx ≥ bpp then
        if cols = 0 then none
        else groupedLoop cols bpp ps (pages ++ [current]) [p] 1
      else
        if cols = 0 then none
        else groupedLoop cols bpp ps pages (current ++ [p]) (idx + 1)

/-- All participants of the mapping in iteration order (the grouped branch
walks entities and their participants in one continuous sequence). -/
def flatParticipants (pbe : List (String × List Participant)) :
    List Participant :=
  (pbe.map Prod.snd).flatten

/-- `generate_badges_pdf` with `group_all_together=True`: the empty-input
guard, the continuous grid loop, and the final `showPage` that commits the
last (possibly empty) page. -/
def generateBadgesPdfGrouped (cols bpp : ℤ)
    (pbe : List (String × List Participant)) :
    PdfResult (List (List Participant)) :=
  if pbe = [] then .skipped
  else
    match groupedLoop cols bpp (flatParticipants pbe) [] [] 0 with
    | none => .crash
    | some (pages, current, _) => .file (pages ++ [current])

/-- The participant loop of the per-entity branch (lines 231–239):
overflow closes the page (redrawing the same entity footer on the fresh
page) and the badge is drawn, tagged with the entity being processed. -/
def entityLoop (cols bpp : ℤ) (footer : String × String) (eid : String) :
    List Participant → List EPage → List (String × Participant) → ℤ →
    Option (List EPage × List (String × Participant) × ℤ)
  | [], pages, current, idx => some (pages, current, idx)
  | p :: ps, pages, current, idx =>
      if idx ≥ bpp then
        if cols = 0 then none
        else entityLoop cols bpp footer eid ps (pages ++ [(footer, current)]) [(eid, p)] 1
      else
        if cols = 0 then none
        else entityLoop cols bpp footer eid ps pages (current ++ [(eid, p)]) (idx + 1)

/-- The entity loop of the per-entity branch (lines 219–242): resolve the
entity info (placeholder `'Unknown Delegation'` when the id is absent from
the entities dictionary), draw the footer on the fresh page, place the
participants, and `showPage` after the entity so the next entity starts on
a new page. -/
def entitiesLoop (entities : List (String × EntityInfo)) (cols bpp : ℤ) :
    List (String × List Participant) → Option (List EPage)
  | [] => some []
  | (eid, plist) :: rest =>
      let info := (dictGet entities eid).getD ⟨"Unknown", "Unknown Delegation"⟩
      let footer := (eid, info.display_name)
      match entityLoop cols bpp footer eid plist [] [] 0 with
      | none => none
      | some (pages, current, _) =>
          match entitiesLoop entities cols bpp rest with
          | none => none
          | some restPages => some (pages ++ [(footer, current)] ++ restPages)

/-- `generate_badges_pdf` with `group_all_together=False` (Per-entity
policy): the empty-input guard, then one page run per entity. -/
def generateBadgesPdfPerEntity (entities : List (String × EntityInfo))
    (cols bpp : ℤ) (pbe : List (String × List Participant)) :
    PdfResult (List EPage) :=
  if pbe = [] then .skipped
  else
    match entitiesLoop entities cols bpp pbe with
    | none => .crash
    | some pages => .file pages

/-- `pat.matchFrom s`: is `pat` an initial segment of `s`? (Helper for the
Python substring test `pat in s`.) -/
def matchFrom : List Char → List Char → Bool
  | [], _ => true
  | _ :: _, [] => false
  | a :: as, b :: bs => a = b && matchFrom as bs

/-- Python's `pat in s` on strings: `pat` occurs contiguously in `s`. -/
def hasSubstring (pat : List Char) : List Char → Bool
  | [] => matchFrom pat []
  | s@(_ :: rest) => matchFrom pat s || hasSubstring pat rest

/-- The classification predicate of `main` (lines 277–278):
`'private delegate' in entity_info.get('entity_type', '').lower()`.
Python's `str.lower()` is modelled character-wise on the code points. -/
def isPrivateDelegate (info : EntityInfo) : Bool :=
  hasSubstring "private delegate".toList
    (info.entity_type.toList.map Char.toLower)

/-- The entity split of `main` (lines 273–281): route every entity to the
private-delegate or the delegation dictionary by the type predicate. -/
def classifyEntities (entities : List (String × EntityInfo)) :
    List (String × EntityInfo) × List (String × EntityInfo) :=
  entities.foldl
    (fun acc kv =>
      if isPrivateDelegate kv.2 then (dictInsert acc.1 kv.1 kv.2, acc.2)
      else (acc.1, dictInsert acc.2 kv.1 kv.2))
    ([], [])

/-- The participant split of `main` (lines 284–294): the entity info is
`entities.get(entity_id, {})`, whose type field defaults to the empty
string, and the same substring predicate routes the participant group. -/
def splitParticipants (entities : List (String × EntityInfo))
    (pbe : List (String × List Participant)) :
    List (String × List Participant) × List (String × List Participant) :=
  pbe.foldl
    (fun acc kv =>
      let info := (dictGet entities kv.1).getD ⟨"", ""⟩
      if isPrivateDelegate info then (dictInsert acc.1 kv.1 kv.2, acc.2)
      else (acc.1, dictInsert acc.2 kv.1 kv.2))
    ([], [])

/-- C6: `computeGeometry` is a pure function of its scalar inputs
satisfying the spec's formulas: usable area `pageWidth - 2*margin` and
`pageHeight - 2*margin - footerReserve`, floored column/row counts,
`badgesPerPage = columns * rows`, and the spacing rule
`(usable - n*size) / (n + 1)` guarded by `n > 1`, else `0`. -/
theorem computeGeometry_matches_spec
    (pageWidth pageHeight margin badgeWidth badgeHeight footerReserve : ℚ) :
    computeGeometry pageWidth pageHeight margin badgeWidth badgeHeight footerReserve =
      specGeometry pageWidth pageHeight margin badgeWidth badgeHeight footerReserve := by
  rfl

/-- C5: names longer than 25 characters render as the first 22 characters
followed by `"..."`, giving length exactly 25; names of length at most 25
render unchanged. -/
theorem truncation_law (s : String) :
    (25 < s.length →
      truncateName s = String.mk (s.toList.take 22) ++ "..." ∧
      (truncateName s).length = 25) ∧
    (s.length ≤ 25 → truncateName s = s) := by
  constructor
  · intro h
    have hgt : s.length > 25 := h
    have hdef : truncateName s = String.mk (s.toList.take 22) ++ "..." := by
      simp only [truncateName, if_pos hgt]
    refine ⟨hdef, ?_⟩
    have hs : s.toList.length = s.length := rfl
    have h3 : ("..." : String).length = 3 := rfl
    rw [hdef, String.length_append, String.length_mk, List.length_take, h3]
    omega
  · intro h
    have hn : ¬ s.length > 25 := by omega
    simp only [truncateName, if_neg hn]

/-- Witness for C5 at concrete names of length 26 and 3. -/
theorem truncation_law_witness :
    truncateName "abcdefghijklmnopqrstuvwxyz" = "abcdefghijklmnopqrstuv..." ∧
    (truncateName "abcdefghijklmnopqrstuvwxyz").length = 25 ∧
    truncateName "bob" = "bob" := by
  have h1 := (truncation_law "abcdefghijklmnopqrstuvwxyz").1 (by decide)
  have h2 := (truncation_law "bob").2 (by decide)
  exact ⟨h1.1.trans (by decide), h1.2, h2⟩

/-- C8: on an empty participant mapping, both policies of
`generate_badges_pdf` hit the guard of line 110: no file is created, no
page and no drawing call is emitted. -/
theorem empty_mapping_noop (entities : List (String × EntityInfo))
    (cols bpp : ℤ) :
    generateBadgesPdfGrouped cols bpp [] = PdfResult.skipped ∧
    generateBadgesPdfPerEntity entities cols bpp [] = PdfResult.skipped :=
  ⟨rfl, rfl⟩

/-- The standard geometry of the source (A4 in mm, margin 10, badge 40×50,
footer reserve 15): a 4×5 grid of 20 badges per page. -/
theorem computeGeometry_std :
    computeGeometry 210 297 10 40 50 15 = ⟨190, 262, 4, 5, 20, 6, 2⟩ := by
  simp only [computeGeometry, Geometry.mk.injEq]
  norm_num

/-- The degenerate geometry of spec §8 item 6: a 250 mm badge on A4 gives
zero columns, hence zero badges per page. -/
theorem computeGeometry_degen :
    computeGeometry 210 297 10 250 50 15 = ⟨190, 262, 0, 5, 0, 0, 2⟩ := by
  simp only [computeGeometry, Geometry.mk.injEq]
  norm_num

/-- C1 (code behaviour at the spec's own degenerate scenario, §8 item 6):
with a 250 mm badge on an A4 page, `computeGeometry` does return
`cols = 0` and `badgesPerPage = 0` without a division error, but
`generate_badges_pdf` has no guard for it: `draw_badge` evaluates
`badge_index % cols` with `cols = 0` and raises `ZeroDivisionError` under
either policy, so no PDF is produced. -/
theorem degenerate_geometry_crashes :
    (computeGeometry 210 297 10 250 50 15).cols = 0 ∧
    (computeGeometry 210 297 10 250 50 15).badgesPerPage = 0 ∧
    generateBadgesPdfGrouped (computeGeometry 210 297 10 250 50 15).cols
      (computeGeometry 210 297 10 250 50 15).badgesPerPage
      [("E1", [⟨"P1", "Bob"⟩])] = PdfResult.crash ∧
    generateBadgesPdfPerEntity [("E1", ⟨"Delegation", "Alpha"⟩)]
      (computeGeometry 210 297 10 250 50 15).cols
      (computeGeometry 210 297 10 250 50 15).badgesPerPage
      [("E1", [⟨"P1", "Bob"⟩])] = PdfResult.crash := by
  rw [computeGeometry_degen]
  refine ⟨rfl, rfl, ?_, ?_⟩ <;> decide

/-- C2 counterexample: at the standard A4 geometry (margin 10, badge
40×50, footer reserve 15) the first badge's top anchor measured from the
page top is 27 = margin + footerReserve + verticalSpacing, not
margin + verticalSpacing = 12: the claim's formula omits the
`footer_height` term that `draw_badge` adds at line 174. -/
theorem badge_anchor_counterexample :
    drawBadgePos (computeGeometry 210 297 10 40 50 15) 297 10 40 50 15 0 =
      some (16, 27, 220) ∧
    (27 : ℚ) ≠ 10 + (computeGeometry 210 297 10 40 50 15).vSpacing +
      0 * (50 + (computeGeometry 210 297 10 40 50 15).vSpacing) := by
  rw [computeGeometry_std]
  constructor
  · have hm : Int.fmod ((0 : ℕ) : ℤ) 4 = 0 := by decide
    have hd : Int.fdiv ((0 : ℕ) : ℤ) 4 = 0 := by decide
    simp only [drawBadgePos, hm, hd]
    norm_num
  · norm_num

/-- C2 amended: with `cols ≠ 0`, badge `i` goes to cell
`(i mod cols, i div cols)`;
`x = margin + hSpacing + col*(badgeWidth + hSpacing)`, and measured from
the page's top edge
`yFromTop = margin + footerReserve + vSpacing + row*(badgeHeight + vSpacing)`;
the conversion to the canvas's bottom-left origin is
`y = pageHeight - yFromTop - badgeHeight`. -/
theorem badge_anchor_amended (g : Geometry)
    (pageHeight margin badgeWidth badgeHeight footerReserve : ℚ) (i : ℕ)
    (h : g.cols ≠ 0) :
    drawBadgePos g pageHeight margin badgeWidth badgeHeight footerReserve i =
      some (margin + g.hSpacing +
              ((Int.fmod (i : ℤ) g.cols : ℤ) : ℚ) * (badgeWidth + g.hSpacing),
            margin + footerReserve + g.vSpacing +
              ((Int.fdiv (i : ℤ) g.cols : ℤ) : ℚ) * (badgeHeight + g.vSpacing),
            pageHeight -
              (margin + footerReserve + g.vSpacing +
                ((Int.fdiv (i : ℤ) g.cols : ℤ) : ℚ) * (badgeHeight + g.vSpacing)) -
              badgeHeight) := by
  simp [drawBadgePos, h]

/-- Witness for C2 amended at the standard A4 geometry, badge index 5
(cell (1,1)). -/
theorem badge_anchor_amended_witness :
    drawBadgePos (computeGeometry 210 297 10 40 50 15) 297 10 40 50 15 5 =
      some (62, 79, 168) := by
  have h := badge_anchor_amended (computeGeometry 210 297 10 40 50 15)
      297 10 40 50 15 5 (by rw [computeGeometry_std]; decide)
  have hm : Int.fmod ((5 : ℕ) : ℤ) 4 = 1 := by decide
  have hd : Int.fdiv ((5 : ℕ) : ℤ) 4 = 1 := by decide
  rw [h, computeGeometry_std]
  simp only [hm, hd]
  norm_num

/-- Invariant of the grouped participant loop: with `cols ≠ 0` and
`0 < bpp` the loop never fails; every completed page holds exactly `bpp`
badges, the open page holds `idx ≤ bpp` badges, badges are conserved in
order, and the open page is non-empty once anything was drawn. -/
theorem groupedLoop_invariant (cols bpp : ℤ) (hc : cols ≠ 0) (hb : 0 < bpp)
    (l : List Participant) :
    ∀ (pages : List (List Participant)) (current : List Participant) (idx : ℤ),
      (∀ pg ∈ pages, (pg.length : ℤ) = bpp) →
      (current.length : ℤ) = idx → idx ≤ bpp →
      ∃ pages2 current2 idx2,
        groupedLoop cols bpp l pages current idx = some (pages2, current2, idx2) ∧
        (∀ pg ∈ pages2, (pg.length : ℤ) = bpp) ∧
        (current2.length : ℤ) = idx2 ∧ idx2 ≤ bpp ∧
        ((pages2.length : ℤ) * bpp + idx2 =
          (pages.length : ℤ) * bpp + idx + l.length) ∧
        (pages2.flatten ++ current2 = pages.flatten ++ current ++ l) ∧
        ((0 < idx ∨ l ≠ []) → 0 < idx2) := by
  induction l with
  | nil =>
    intro pages current idx hpages hcur hle
    refine ⟨pages, current, idx, rfl, hpages, hcur, hle, by simp,
      by simp, ?_⟩
    rintro (h | h)
    · exact h
    · simp at h
  | cons p ps ih =>
    intro pages current idx hpages hcur hle
    by_cases hidx : idx ≥ bpp
    · have hstep : groupedLoop cols bpp (p :: ps) pages current idx =
          groupedLoop cols bpp ps (pages ++ [current]) [p] 1 := by
        simp only [groupedLoop, if_pos hidx, if_neg hc]
      have hidx_eq : idx = bpp := le_antisymm hle hidx
      have hpages2 : ∀ pg ∈ pages ++ [current], (pg.length : ℤ) = bpp := by
        intro pg hpg
        rcases List.mem_append.1 hpg with h | h
        · exact hpages pg h
        · simp only [List.mem_singleton] at h
          subst h
          rw [hcur, hidx_eq]
      obtain ⟨pages2, current2, idx2, heq, h1, h2, h3, h4, h5, h6⟩ :=
        ih (pages ++ [current]) [p] 1 hpages2 (by simp) hb
      refine ⟨pages2, current2, idx2, hstep ▸ heq, h1, h2, h3, ?_, ?_,
        fun _ => h6 (Or.inl one_pos)⟩
      · rw [h4, hidx_eq]
        simp only [List.length_append, List.length_cons, List.length_nil]
        push_cast
        ring
      · rw [h5]
        simp [List.append_assoc]
    · have hstep : groupedLoop cols bpp (p :: ps) pages current idx =
          groupedLoop cols bpp ps pages (current ++ [p]) (idx + 1) := by
        simp only [groupedLoop, if_neg hidx, if_neg hc]
      have hlt : idx < bpp := lt_of_not_ge hidx
      obtain ⟨pages2, current2, idx2, heq, h1, h2, h3, h4, h5, h6⟩ :=
        ih pages (current ++ [p]) (idx + 1)
          hpages (by simp [← hcur]) (by omega)
      refine ⟨pages2, current2, idx2, hstep ▸ heq, h1, h2, h3, ?_, ?_,
        fun _ => h6 (Or.inl (by omega))⟩
      · rw [h4]
        simp only [List.length_cons]
        push_cast
        ring
      · rw [h5]
        simp [List.append_assoc]

/-- With zero columns the grouped loop fails on its first badge
(`badge_index % cols` raises `ZeroDivisionError`). -/
theorem groupedLoop_zero_cols (bpp : ℤ) (p : Participant) (ps : List Participant)
    (pages : List (List Participant)) (current : List Participant) (idx : ℤ) :
    groupedLoop 0 bpp (p :: ps) pages current idx = none := by
  by_cases h : idx ≥ bpp
  · simp [groupedLoop, if_pos h]
  · simp [groupedLoop, if_neg h]

/-- C3 (amended): under the Grouped policy with `badgesPerPage > 0` and a
mapping holding at least one participant, every emitted page except the
last has exactly `badgesPerPage` badges; the last page has
`total mod badgesPerPage` badges (or `badgesPerPage` when evenly
divisible); the pages partition the participant sequence in order. -/
theorem grouped_pagination (cols bpp : ℤ)
    (pbe : List (String × List Participant))
    (pages : List (List Participant))
    (hfile : generateBadgesPdfGrouped cols bpp pbe = PdfResult.file pages)
    (hb : 0 < bpp) (htot : flatParticipants pbe ≠ []) :
    ∃ front lastPage, pages = front ++ [lastPage] ∧
      (∀ pg ∈ front, (pg.length : ℤ) = bpp) ∧
      0 < lastPage.length ∧
      ((lastPage.length : ℤ) =
        if ((flatParticipants pbe).length : ℤ) % bpp = 0 then bpp
        else ((flatParticipants pbe).length : ℤ) % bpp) ∧
      pages.flatten = flatParticipants pbe := by
  by_cases hpbe : pbe = []
  · rw [hpbe] at hfile
    simp [generateBadgesPdfGrouped] at hfile
  have hc : cols ≠ 0 := by
    intro h0
    subst h0
    obtain ⟨q, qs, hl⟩ := List.exists_cons_of_ne_nil htot
    rw [generateBadgesPdfGrouped, if_neg hpbe, hl, groupedLoop_zero_cols] at hfile
    exact PdfResult.noConfusion hfile
  obtain ⟨p2, c2, i2, heq, h1, h2, h3, h4, h5, h6⟩ :=
    groupedLoop_invariant cols bpp hc hb (flatParticipants pbe) [] [] 0
      (by simp) (by simp) hb.le
  rw [generateBadgesPdfGrouped, if_neg hpbe, heq] at hfile
  have hpageseq : pages = p2 ++ [c2] := by
    have := PdfResult.file.inj hfile
    exact this.symm
  have hi2pos : 0 < i2 := h6 (Or.inr htot)
  have htotal : (p2.length : ℤ) * bpp + i2 =
      ((flatParticipants pbe).length : ℤ) := by simpa using h4
  have hflat : p2.flatten ++ c2 = flatParticipants pbe := by simpa using h5
  have hmod : ((flatParticipants pbe).length : ℤ) % bpp = i2 % bpp := by
    rw [← htotal]
    have hcomm : (p2.length : ℤ) * bpp + i2 = i2 + (p2.length : ℤ) * bpp := by
      ring
    rw [hcomm, Int.add_mul_emod_self]
  refine ⟨p2, c2, hpageseq, h1, by omega, ?_, ?_⟩
  · by_cases hcase : i2 = bpp
    · rw [if_pos]
      · omega
      · rw [hmod, hcase, Int.emod_self]
    · have hi2lt : i2 < bpp := lt_of_le_of_ne h3 hcase
      have hsmall : i2 % bpp = i2 := Int.emod_eq_of_lt hi2pos.le hi2lt
      rw [if_neg]
      · omega
      · rw [hmod, hsmall]
        omega
  · rw [hpageseq]
    simp only [List.flatten_append, List.flatten_cons, List.flatten_nil,
      List.append_nil]
    exact hflat

/-- C3 counterexample: the mapping `{"E1": []}` is non-empty and has
`total = 0` participants, evenly divisible by `badgesPerPage = 20`, yet
the single (hence last) emitted page carries 0 badges, not 20: the
grouped branch commits the footer-only page it opened at the start. -/
theorem grouped_pagination_counterexample :
    [("E1", ([] : List Participant))] ≠ [] ∧ (0 : ℤ) < 20 ∧
    ((flatParticipants [("E1", ([] : List Participant))]).length : ℤ) % 20 = 0 ∧
    generateBadgesPdfGrouped 4 20 [("E1", ([] : List Participant))] =
      PdfResult.file [[]] ∧
    (([] : List Participant).length : ℤ) ≠ 20 := by
  refine ⟨by decide, by decide, by decide, by decide, by decide⟩

/-- Witness for C3 at `badgesPerPage = 2` and three participants: two
pages, of sizes 2 and 1. -/
theorem grouped_pagination_witness :
    ∃ front lastPage,
      ([[⟨"1", "A"⟩, ⟨"2", "B"⟩], [⟨"3", "C"⟩]] : List (List Participant)) =
        front ++ [lastPage] ∧
      (∀ pg ∈ front, (pg.length : ℤ) = 2) ∧
      0 < lastPage.length ∧
      ((lastPage.length : ℤ) =
        if ((flatParticipants
              [("E", [⟨"1", "A"⟩, ⟨"2", "B"⟩, ⟨"3", "C"⟩])]).length : ℤ) % 2 = 0
        then 2
        else ((flatParticipants
              [("E", [⟨"1", "A"⟩, ⟨"2", "B"⟩, ⟨"3", "C"⟩])]).length : ℤ) % 2) ∧
      ([[⟨"1", "A"⟩, ⟨"2", "B"⟩], [⟨"3", "C"⟩]] :
        List (List Participant)).flatten =
        flatParticipants [("E", [⟨"1", "A"⟩, ⟨"2", "B"⟩, ⟨"3", "C"⟩])] :=
  grouped_pagination 4 2 [("E", [⟨"1", "A"⟩, ⟨"2", "B"⟩, ⟨"3", "C"⟩])]
    [[⟨"1", "A"⟩, ⟨"2", "B"⟩], [⟨"3", "C"⟩]] (by decide) (by decide) (by decide)

/-- A page of the per-entity loop is well-formed for entity `eid` when it
carries the entity's footer and only badges tagged `eid`. -/
def pageOk (footer : String × String) (eid : String) (pg : EPage) : Prop :=
  pg.1 = footer ∧ ∀ b ∈ pg.2, b.1 = eid

/-- The inner per-entity loop only ever adds badges of its own entity and
pages with its own footer. -/
theorem entityLoop_ok (cols bpp : ℤ) (footer : String × String) (eid : String)
    (l : List Participant) :
    ∀ (pages : List EPage) (current : List (String × Participant)) (idx : ℤ)
      (pages2 : List EPage) (current2 : List (String × Participant)) (idx2 : ℤ),
      (∀ pg ∈ pages, pageOk footer eid pg) →
      (∀ b ∈ current, b.1 = eid) →
      entityLoop cols bpp footer eid l pages current idx =
        some (pages2, current2, idx2) →
      (∀ pg ∈ pages2, pageOk footer eid pg) ∧ (∀ b ∈ current2, b.1 = eid) := by
  induction l with
  | nil =>
    intro pages current idx pages2 current2 idx2 hpages hcur heq
    simp only [entityLoop, Option.some.injEq, Prod.mk.injEq] at heq
    obtain ⟨h1, h2, h3⟩ := heq
    subst h1; subst h2
    exact ⟨hpages, hcur⟩
  | cons p ps ih =>
    intro pages current idx pages2 current2 idx2 hpages hcur heq
    by_cases hc : cols = 0
    · by_cases hidx : idx ≥ bpp <;>
        simp [entityLoop, hc, hidx] at heq
    · by_cases hidx : idx ≥ bpp
      · rw [show entityLoop cols bpp footer eid (p :: ps) pages current idx =
            entityLoop cols bpp footer eid ps (pages ++ [(footer, current)])
              [(eid, p)] 1 by
          simp only [entityLoop, if_pos hidx, if_neg hc]] at heq
        refine ih _ _ _ _ _ _ ?_ ?_ heq
        · intro pg hpg
          rcases List.mem_append.1 hpg with h | h
          · exact hpages pg h
          · simp only [List.mem_singleton] at h
            subst h
            exact ⟨rfl, hcur⟩
        · intro b hb
          simp only [List.mem_singleton] at hb
          subst hb
          rfl
      · rw [show entityLoop cols bpp footer eid (p :: ps) pages current idx =
            entityLoop cols bpp footer eid ps pages (current ++ [(eid, p)])
              (idx + 1) by
          simp only [entityLoop, if_neg hidx, if_neg hc]] at heq
        refine ih _ _ _ _ _ _ hpages ?_ heq
        intro b hb
        rcases List.mem_append.1 hb with h | h
        · exact hcur b h
        · simp only [List.mem_singleton] at h
          subst h
          rfl

/-- Every page emitted by the per-entity entity loop belongs to one key of
the mapping: its footer is that entity's id with its resolved display
name, and every badge on it is tagged with that id. -/
theorem entitiesLoop_pages (entities : List (String × EntityInfo))
    (cols bpp : ℤ) :
    ∀ (pbe : List (String × List Participant)) (pages : List EPage),
      entitiesLoop entities cols bpp pbe = some pages →
      ∀ pg ∈ pages, ∃ eid plist, (eid, plist) ∈ pbe ∧
        pg.1 = (eid, ((dictGet entities eid).getD
          ⟨"Unknown", "Unknown Delegation"⟩).display_name) ∧
        ∀ b ∈ pg.2, b.1 = eid := by
  intro pbe
  induction pbe with
  | nil =>
    intro pages heq pg hpg
    simp only [entitiesLoop, Option.some.injEq] at heq
    subst heq
    simp at hpg
  | cons hd rest ih =>
    obtain ⟨eid, plist⟩ := hd
    intro pages heq pg hpg
    rw [entitiesLoop] at heq
    cases he : entityLoop cols bpp
        (eid, ((dictGet entities eid).getD
          ⟨"Unknown", "Unknown Delegation"⟩).display_name) eid plist [] [] 0 with
    | none => rw [he] at heq; exact absurd heq (by simp)
    | some st =>
      obtain ⟨pages1, current1, idx1⟩ := st
      rw [he] at heq
      cases hrest : entitiesLoop entities cols bpp rest with
      | none => rw [hrest] at heq; exact absurd heq (by simp)
      | some restPages =>
        rw [hrest] at heq
        simp only [Option.some.injEq] at heq
        subst heq
        have hok := entityLoop_ok cols bpp
          (eid, ((dictGet entities eid).getD
            ⟨"Unknown", "Unknown Delegation"⟩).display_name) eid plist
          [] [] 0 pages1 current1 idx1 (by simp) (by simp) he
        rcases List.mem_append.1 hpg with hin | hin
        · rcases List.mem_append.1 hin with hin2 | hin2
          · obtain ⟨hfoot, htags⟩ := hok.1 pg hin2
            exact ⟨eid, plist, List.mem_cons_self _ _, hfoot, htags⟩
          · simp only [List.mem_singleton] at hin2
            subst hin2
            exact ⟨eid, plist, List.mem_cons_self _ _, rfl, hok.2⟩
        · obtain ⟨eid2, plist2, hmem, hfoot, htags⟩ := ih restPages hrest pg hin
          exact ⟨eid2, plist2, List.mem_cons_of_mem _ hmem, hfoot, htags⟩

/-- C4: under the Per-entity policy, every page's badges belong to the
single entity named in the page's footer (so no page mixes two distinct
entities, and every continuation page of an entity carries that entity's
footer); the page break forced after each entity guarantees the next
entity never shares a page. -/
theorem per_entity_isolation (entities : List (String × EntityInfo))
    (cols bpp : ℤ) (pbe : List (String × List Participant))
    (pages : List EPage)
    (hfile : generateBadgesPdfPerEntity entities cols bpp pbe =
      PdfResult.file pages) :
    (∀ pg ∈ pages, ∀ b ∈ pg.2, b.1 = pg.1.1) ∧
    (∀ pg ∈ pages, ∀ b1 ∈ pg.2, ∀ b2 ∈ pg.2, b1.1 = b2.1) := by
  by_cases hpbe : pbe = []
  · rw [hpbe] at hfile
    simp [generateBadgesPdfPerEntity] at hfile
  rw [generateBadgesPdfPerEntity, if_neg hpbe] at hfile
  cases hloop : entitiesLoop entities cols bpp pbe with
  | none => rw [hloop] at hfile; exact absurd hfile (by simp)
  | some pages0 =>
    rw [hloop] at hfile
    have hp0 : pages0 = pages := PdfResult.file.inj hfile
    subst hp0
    have hall := entitiesLoop_pages entities cols bpp pbe pages0 hloop
    constructor
    · intro pg hpg b hb
      obtain ⟨eid, plist, _, hfoot, htags⟩ := hall pg hpg
      rw [htags b hb, hfoot]
    · intro pg hpg b1 hb1 b2 hb2
      obtain ⟨eid, plist, _, hfoot, htags⟩ := hall pg hpg
      rw [htags b1 hb1, htags b2 hb2]

/-- Witness for C4: one entity overflowing onto a second page followed by
an unknown entity, at `badgesPerPage = 2`. -/
theorem per_entity_isolation_witness :
    (∀ pg ∈ ([((("E1", "Alpha")),
        [("E1", (⟨"1", "A"⟩ : Participant)), ("E1", ⟨"2", "B"⟩)]),
      ((("E1", "Alpha")), [("E1", ⟨"3", "C"⟩)]),
      ((("E2", "Unknown Delegation")), [("E2", ⟨"4", "D"⟩)])] : List EPage),
      ∀ b ∈ pg.2, b.1 = pg.1.1) ∧
    (∀ pg ∈ ([((("E1", "Alpha")),
        [("E1", (⟨"1", "A"⟩ : Participant)), ("E1", ⟨"2", "B"⟩)]),
      ((("E1", "Alpha")), [("E1", ⟨"3", "C"⟩)]),
      ((("E2", "Unknown Delegation")), [("E2", ⟨"4", "D"⟩)])] : List EPage),
      ∀ b1 ∈ pg.2, ∀ b2 ∈ pg.2, b1.1 = b2.1) :=
  per_entity_isolation [("E1", ⟨"Delegation", "Alpha"⟩)] 4 2
    [("E1", [⟨"1", "A"⟩, ⟨"2", "B"⟩, ⟨"3", "C"⟩]), ("E2", [⟨"4", "D"⟩])]
    _ (by decide)

/-- `dictInsert` appends a binding whose key is not yet present. -/
theorem dictInsert_fresh {α : Type} (d : List (String × α)) (k : String)
    (v : α) (h : k ∉ d.map Prod.fst) : dictInsert d k v = d ++ [(k, v)] := by
  induction d with
  | nil => rfl
  | cons hd rest ih =>
    obtain ⟨k2, v2⟩ := hd
    simp only [List.map_cons, List.mem_cons] at h
    push_neg at h
    simp only [dictInsert, if_neg (Ne.symm h.1), List.cons_append,
      List.cons.injEq, true_and]
    exact ih h.2

/-- The routing fold of `main` (build two dictionaries by a Boolean
predicate) equals the two filters of the input, provided keys are unique
and fresh with respect to the accumulators. -/
theorem splitFold_eq {α : Type} (p : String × α → Bool) :
    ∀ (l : List (String × α)) (acc1 acc2 : List (String × α)),
      (l.map Prod.fst).Nodup →
      (∀ kv ∈ l, kv.1 ∉ acc1.map Prod.fst) →
      (∀ kv ∈ l, kv.1 ∉ acc2.map Prod.fst) →
      l.foldl (fun acc kv =>
          if p kv then (dictInsert acc.1 kv.1 kv.2, acc.2)
          else (acc.1, dictInsert acc.2 kv.1 kv.2)) (acc1, acc2) =
        (acc1 ++ l.filter p, acc2 ++ l.filter (fun kv => !(p kv))) := by
  intro l
  induction l with
  | nil => intro acc1 acc2 _ _ _; simp
  | cons kv rest ih =>
    intro acc1 acc2 hnodup hacc1 hacc2
    simp only [List.map_cons, List.nodup_cons] at hnodup
    have hfresh1 : kv.1 ∉ acc1.map Prod.fst := hacc1 kv (List.mem_cons_self _ _)
    have hfresh2 : kv.1 ∉ acc2.map Prod.fst := hacc2 kv (List.mem_cons_self _ _)
    rw [List.foldl_cons]
    by_cases hp : p kv
    · rw [if_pos hp, dictInsert_fresh acc1 kv.1 kv.2 hfresh1]
      rw [ih (acc1 ++ [(kv.1, kv.2)]) acc2 hnodup.2 ?_ ?_]
      · rw [List.filter_cons_of_pos hp,
          List.filter_cons_of_neg (by simp [hp])]
        simp
      · intro kv2 hkv2
        simp only [List.map_append, List.mem_append, List.map_cons,
          List.map_nil, List.mem_singleton]
        rintro (hin | hin)
        · exact hacc1 kv2 (List.mem_cons_of_mem _ hkv2) hin
        · exact hnodup.1 (hin ▸ List.mem_map_of_mem Prod.fst hkv2)
      · intro kv2 hkv2
        exact hacc2 kv2 (List.mem_cons_of_mem _ hkv2)
    · rw [if_neg hp, dictInsert_fresh acc2 kv.1 kv.2 hfresh2]
      rw [ih acc1 (acc2 ++ [(kv.1, kv.2)]) hnodup.2 ?_ ?_]
      · rw [List.filter_cons_of_neg hp,
          List.filter_cons_of_pos (by simp [hp])]
        simp
      · intro kv2 hkv2
        exact hacc1 kv2 (List.mem_cons_of_mem _ hkv2)
      · intro kv2 hkv2
        simp only [List.map_append, List.mem_append, List.map_cons,
          List.map_nil, List.mem_singleton]
        rintro (hin | hin)
        · exact hacc2 kv2 (List.mem_cons_of_mem _ hkv2) hin
        · exact hnodup.1 (hin ▸ List.mem_map_of_mem Prod.fst hkv2)

/-- The entity split of `main` is the pair of filters along the
private-delegate predicate (entity keys are unique, coming from a dict). -/
theorem classifyEntities_eq (entities : List (String × EntityInfo))
    (hnodup : (entities.map Prod.fst).Nodup) :
    classifyEntities entities =
      (entities.filter (fun kv => isPrivateDelegate kv.2),
       entities.filter (fun kv => !(isPrivateDelegate kv.2))) := by
  have h := splitFold_eq (fun kv => isPrivateDelegate kv.2) entities [] []
    hnodup (by simp) (by simp)
  simpa [classifyEntities] using h

/-- The participant split of `main` is the pair of filters along the
private-delegate predicate applied to the (possibly absent) entity info. -/
theorem splitParticipants_eq (entities : List (String × EntityInfo))
    (pbe : List (String × List Participant))
    (hnodup : (pbe.map Prod.fst).Nodup) :
    splitParticipants entities pbe =
      (pbe.filter (fun kv =>
          isPrivateDelegate ((dictGet entities kv.1).getD ⟨"", ""⟩)),
       pbe.filter (fun kv =>
          !(isPrivateDelegate ((dictGet entities kv.1).getD ⟨"", ""⟩)))) := by
  have h := splitFold_eq
    (fun kv => isPrivateDelegate ((dictGet entities kv.1).getD ⟨"", ""⟩))
    pbe [] [] hnodup (by simp) (by simp)
  simpa [splitParticipants] using h

/-- C7: every entity record goes to exactly one of the two streams — the
union of the streams is the whole entities dictionary, the intersection is
empty — and it lands in the private-delegate stream exactly when its type
field, lowercased, contains the substring `"private delegate"`. -/
theorem classification_partition (entities : List (String × EntityInfo))
    (hnodup : (entities.map Prod.fst).Nodup) (e : String × EntityInfo) :
    ((e ∈ (classifyEntities entities).1 ∨ e ∈ (classifyEntities entities).2) ↔
      e ∈ entities) ∧
    ¬(e ∈ (classifyEntities entities).1 ∧ e ∈ (classifyEntities entities).2) ∧
    (e ∈ entities →
      ((e ∈ (classifyEntities entities).1 ↔ isPrivateDelegate e.2 = true) ∧
       (e ∈ (classifyEntities entities).2 ↔ isPrivateDelegate e.2 = false))) := by
  rw [classifyEntities_eq entities hnodup]
  simp only [List.mem_filter, Bool.not_eq_true']
  refine ⟨⟨?_, ?_⟩, ?_, ?_⟩
  · rintro (⟨h, _⟩ | ⟨h, _⟩) <;> exact h
  · intro h
    by_cases hp : isPrivateDelegate e.2
    · exact Or.inl ⟨h, hp⟩
    · exact Or.inr ⟨h, by simpa using hp⟩
  · rintro ⟨⟨_, h1⟩, ⟨_, h2⟩⟩
    rw [h1] at h2
    exact Bool.noConfusion h2
  · intro h
    exact ⟨⟨fun hp => hp.2, fun hp => ⟨h, hp⟩⟩,
           ⟨fun hp => hp.2, fun hp => ⟨h, hp⟩⟩⟩

/-- Witness for C7: two entities, one of each stream. -/
theorem classification_partition_witness :
    ((("A", (⟨"Private Delegate", "x"⟩ : EntityInfo)) ∈
        (classifyEntities [("A", ⟨"Private Delegate", "x"⟩),
          ("B", ⟨"Regular Delegation", "y"⟩)]).1 ∨
      ("A", (⟨"Private Delegate", "x"⟩ : EntityInfo)) ∈
        (classifyEntities [("A", ⟨"Private Delegate", "x"⟩),
          ("B", ⟨"Regular Delegation", "y"⟩)]).2) ↔
      ("A", (⟨"Private Delegate", "x"⟩ : EntityInfo)) ∈
        [("A", ⟨"Private Delegate", "x"⟩), ("B", ⟨"Regular Delegation", "y"⟩)]) ∧
    ¬(("A", (⟨"Private Delegate", "x"⟩ : EntityInfo)) ∈
        (classifyEntities [("A", ⟨"Private Delegate", "x"⟩),
          ("B", ⟨"Regular Delegation", "y"⟩)]).1 ∧
      ("A", (⟨"Private Delegate", "x"⟩ : EntityInfo)) ∈
        (classifyEntities [("A", ⟨"Private Delegate", "x"⟩),
          ("B", ⟨"Regular Delegation", "y"⟩)]).2) ∧
    (("A", (⟨"Private Delegate", "x"⟩ : EntityInfo)) ∈
        [("A", ⟨"Private Delegate", "x"⟩), ("B", ⟨"Regular Delegation", "y"⟩)] →
      ((("A", (⟨"Private Delegate", "x"⟩ : EntityInfo)) ∈
          (classifyEntities [("A", ⟨"Private Delegate", "x"⟩),
            ("B", ⟨"Regular Delegation", "y"⟩)]).1 ↔
        isPrivateDelegate ⟨"Private Delegate", "x"⟩ = true) ∧
       (("A", (⟨"Private Delegate", "x"⟩ : EntityInfo)) ∈
          (classifyEntities [("A", ⟨"Private Delegate", "x"⟩),
            ("B", ⟨"Regular Delegation", "y"⟩)]).2 ↔
        isPrivateDelegate ⟨"Private Delegate", "x"⟩ = false))) :=
  classification_partition
    [("A", ⟨"Private Delegate", "x"⟩), ("B", ⟨"Regular Delegation", "y"⟩)]
    (by decide) ("A", ⟨"Private Delegate", "x"⟩)

/-- C10: a participant group whose `entity_id` is absent from the entities
dictionary is routed by `main` to the delegation (Per-entity) stream and
never to the private-delegate stream (its type defaults to the empty
string, which does not contain `"private delegate"`), and any page the
Per-entity compositor emits under that id carries the placeholder footer
display name `"Unknown Delegation"`. -/
theorem unknown_entity_routing (entities : List (String × EntityInfo))
    (pbe : List (String × List Participant)) (eid : String)
    (plist : List Participant)
    (hunknown : dictGet entities eid = none)
    (hmem : (eid, plist) ∈ pbe)
    (hnodup : (pbe.map Prod.fst).Nodup) :
    (eid, plist) ∈ (splitParticipants entities pbe).2 ∧
    (eid, plist) ∉ (splitParticipants entities pbe).1 ∧
    ∀ (cols bpp : ℤ) (sub : List (String × List Participant))
      (pages : List EPage),
      generateBadgesPdfPerEntity entities cols bpp sub = PdfResult.file pages →
      ∀ pg ∈ pages, pg.1.1 = eid → pg.1.2 = "Unknown Delegation" := by
  have hpred : isPrivateDelegate ((dictGet entities eid).getD ⟨"", ""⟩) =
      false := by
    rw [hunknown]
    decide
  rw [splitParticipants_eq entities pbe hnodup]
  refine ⟨?_, ?_, ?_⟩
  · exact List.mem_filter.2 ⟨hmem, by simp [hpred]⟩
  · intro hin
    have := (List.mem_filter.1 hin).2
    simp only at this
    rw [hpred] at this
    exact Bool.noConfusion this
  · intro cols bpp sub pages hfile pg hpg hpgid
    by_cases hsub : sub = []
    · rw [hsub] at hfile
      simp [generateBadgesPdfPerEntity] at hfile
    rw [generateBadgesPdfPerEntity, if_neg hsub] at hfile
    cases hloop : entitiesLoop entities cols bpp sub with
    | none => rw [hloop] at hfile; exact absurd hfile (by simp)
    | some pages0 =>
      rw [hloop] at hfile
      have hp0 : pages0 = pages := PdfResult.file.inj hfile
      subst hp0
      obtain ⟨eid2, plist2, _, hfoot, _⟩ :=
        entitiesLoop_pages entities cols bpp sub pages0 hloop pg hpg
      have heid : eid2 = eid := by
        rw [hfoot] at hpgid
        exact hpgid
      rw [hfoot, heid, hunknown]
      rfl

/-- Witness for C10: entity `"Z"` is absent from the entities dictionary;
its group goes to the delegation stream and renders with the placeholder
footer. -/
theorem unknown_entity_routing_witness :
    ("Z", [(⟨"2", "b"⟩ : Participant)]) ∈
      (splitParticipants [("E1", ⟨"Delegation", "Alpha"⟩)]
        [("E1", [⟨"1", "a"⟩]), ("Z", [⟨"2", "b"⟩])]).2 ∧
    ("Z", [(⟨"2", "b"⟩ : Participant)]) ∉
      (splitParticipants [("E1", ⟨"Delegation", "Alpha"⟩)]
        [("E1", [⟨"1", "a"⟩]), ("Z", [⟨"2", "b"⟩])]).1 ∧
    ∀ (cols bpp : ℤ) (sub : List (String × List Participant))
      (pages : List EPage),
      generateBadgesPdfPerEntity [("E1", ⟨"Delegation", "Alpha"⟩)]
        cols bpp sub = PdfResult.file pages →
      ∀ pg ∈ pages, pg.1.1 = "Z" → pg.1.2 = "Unknown Delegation" :=
  unknown_entity_routing [("E1", ⟨"Delegation", "Alpha"⟩)]
    [("E1", [⟨"1", "a"⟩]), ("Z", [⟨"2", "b"⟩])] "Z" [⟨"2", "b"⟩]
    (by decide) (by decide) (by decide)

/-- Membership after a dict assignment: the new binding or an old one. -/
theorem mem_dictInsert {α : Type} (d : List (String × α)) (k : String)
    (v : α) : ∀ kv ∈ dictInsert d k v, kv ∈ d ∨ kv = (k, v) := by
  induction d with
  | nil =>
    intro kv hkv
    simp only [dictInsert, List.mem_singleton] at hkv
    exact Or.inr hkv
  | cons hd rest ih =>
    obtain ⟨k2, v2⟩ := hd
    intro kv hkv
    simp only [dictInsert] at hkv
    by_cases h : k2 = k
    · rw [if_pos h] at hkv
      rcases List.mem_cons.1 hkv with h2 | h2
      · subst h
        exact Or.inr h2
      · exact Or.inl (List.mem_cons_of_mem _ h2)
    · rw [if_neg h] at hkv
      rcases List.mem_cons.1 hkv with h2 | h2
      · exact Or.inl (by rw [h2]; exact List.mem_cons_self _ _)
      · rcases ih kv h2 with h3 | h3
        · exact Or.inl (List.mem_cons_of_mem _ h3)
        · exact Or.inr h3

/-- Membership after a grouped append: an old participant of some group,
or the appended one. -/
theorem mem_dictAppend {α : Type} (d : List (String × List α)) (k : String)
    (x : α) : ∀ g ∈ dictAppend d k x, ∀ p ∈ g.2,
      (∃ g2 ∈ d, p ∈ g2.2) ∨ p = x := by
  induction d with
  | nil =>
    intro g hg p hp
    simp only [dictAppend, List.mem_singleton] at hg
    subst hg
    simp only [List.mem_singleton] at hp
    exact Or.inr hp
  | cons hd rest ih =>
    obtain ⟨k2, l⟩ := hd
    intro g hg p hp
    simp only [dictAppend] at hg
    by_cases h : k2 = k
    · rw [if_pos h] at hg
      rcases List.mem_cons.1 hg with h2 | h2
      · subst h2
        rcases List.mem_append.1 hp with h3 | h3
        · exact Or.inl ⟨(k2, l), List.mem_cons_self _ _, h3⟩
        · simp only [List.mem_singleton] at h3
          exact Or.inr h3
      · exact Or.inl ⟨g, List.mem_cons_of_mem _ h2, hp⟩
    · rw [if_neg h] at hg
      rcases List.mem_cons.1 hg with h2 | h2
      · exact Or.inl ⟨g, by rw [h2]; exact List.mem_cons_self _ _, hp⟩
      · rcases ih g h2 p hp with h3 | h3
        · obtain ⟨g2, hg2, hp2⟩ := h3
          exact Or.inl ⟨g2, List.mem_cons_of_mem _ hg2, hp2⟩
        · exact Or.inr h3

/-- Spec §4.1 contract for one stored entity record: the key is present in
the source row; every field is the stripped row value, defaulting to the
empty string when the column is absent; the display name prefers a
non-empty team name over the institution name. -/
def entityEntryFromRow (kv : String × EntityInfo) (r : Row) : Prop :=
  (dictGet r "entity_id").isSome = true ∧
  kv.1 = pyStrip ((dictGet r "entity_id").getD "") ∧
  kv.2.entity_type = pyStrip ((dictGet r "entity_type").getD "") ∧
  kv.2.display_name =
    (if pyStrip ((dictGet r "team_name").getD "") ≠ ""
     then pyStrip ((dictGet r "team_name").getD "")
     else pyStrip ((dictGet r "institution_name").getD ""))

/-- Spec §4.1 contract for one stored participant record. -/
def participantFromRow (p : Participant) (r : Row) : Prop :=
  (dictGet r "entity_id").isSome = true ∧
  p.participant_id = pyStrip ((dictGet r "participant_id").getD "") ∧
  p.name = pyStrip ((dictGet r "name").getD "")

/-- The entity loader fails with the missing-key error exactly when some
row lacks the `entity_id` column. -/
theorem loadEntitiesAux_error (rows : List Row) :
    ∀ acc, (loadEntitiesAux acc rows = .error (.missingKey "entity_id") ↔
      ∃ r ∈ rows, dictGet r "entity_id" = none) := by
  induction rows with
  | nil =>
    intro acc
    simp [loadEntitiesAux]
  | cons row rest ih =>
    intro acc
    cases hd : dictGet row "entity_id" with
    | none =>
      simp only [loadEntitiesAux, parseEntityRow, hd]
      exact ⟨fun _ => ⟨row, List.mem_cons_self _ _, hd⟩, fun _ => trivial⟩
    | some v =>
      simp only [loadEntitiesAux, parseEntityRow, hd]
      rw [ih]
      constructor
      · rintro ⟨r, hr, hnone⟩
        exact ⟨r, List.mem_cons_of_mem _ hr, hnone⟩
      · rintro ⟨r, hr, hnone⟩
        rcases List.mem_cons.1 hr with h | h
        · rw [h, hd] at hnone
          exact Option.noConfusion hnone
        · exact ⟨r, h, hnone⟩

/-- The only error the entity loader can produce is the missing-key error. -/
theorem loadEntitiesAux_error_shape (rows : List Row) :
    ∀ acc e, loadEntitiesAux acc rows = .error e →
      e = .missingKey "entity_id" := by
  induction rows with
  | nil =>
    intro acc e h
    simp [loadEntitiesAux] at h
  | cons row rest ih =>
    intro acc e h
    cases hd : dictGet row "entity_id" with
    | none =>
      simp only [loadEntitiesAux, parseEntityRow, hd, Except.error.injEq] at h
      exact h.symm
    | some v =>
      simp only [loadEntitiesAux, parseEntityRow, hd] at h
      exact ih _ e h

/-- The participant loader fails with the missing-key error exactly when
some row lacks the `entity_id` column. -/
theorem loadParticipantsAux_error (rows : List Row) :
    ∀ acc, (loadParticipantsAux acc rows = .error (.missingKey "entity_id") ↔
      ∃ r ∈ rows, dictGet r "entity_id" = none) := by
  induction rows with
  | nil =>
    intro acc
    simp [loadParticipantsAux]
  | cons row rest ih =>
    intro acc
    cases hd : dictGet row "entity_id" with
    | none =>
      simp only [loadParticipantsAux, parseParticipantRow, hd]
      exact ⟨fun _ => ⟨row, List.mem_cons_self _ _, hd⟩, fun _ => trivial⟩
    | some v =>
      simp only [loadParticipantsAux, parseParticipantRow, hd]
      rw [ih]
      constructor
      · rintro ⟨r, hr, hnone⟩
        exact ⟨r, List.mem_cons_of_mem _ hr, hnone⟩
      · rintro ⟨r, hr, hnone⟩
        rcases List.mem_cons.1 hr with h | h
        · rw [h, hd] at hnone
          exact Option.noConfusion hnone
        · exact ⟨r, h, hnone⟩

/-- The only error the participant loader can produce is the missing-key
error. -/
theorem loadParticipantsAux_error_shape (rows : List Row) :
    ∀ acc e, loadParticipantsAux acc rows = .error e →
      e = .missingKey "entity_id" := by
  induction rows with
  | nil =>
    intro acc e h
    simp [loadParticipantsAux] at h
  | cons row rest ih =>
    intro acc e h
    cases hd : dictGet row "entity_id" with
    | none =>
      simp only [loadParticipantsAux, parseParticipantRow, hd,
        Except.error.injEq] at h
      exact h.symm
    | some v =>
      simp only [loadParticipantsAux, parseParticipantRow, hd] at h
      exact ih _ e h

/-- Every record stored by the entity loader originates from some input
row according to the spec's field contract. -/
theorem loadEntitiesAux_ok (rows : List Row) :
    ∀ acc d, loadEntitiesAux acc rows = .ok d →
      ∀ kv ∈ d, kv ∈ acc ∨ ∃ r ∈ rows, entityEntryFromRow kv r := by
  induction rows with
  | nil =>
    intro acc d heq kv hkv
    simp only [loadEntitiesAux, Except.ok.injEq] at heq
    subst heq
    exact Or.inl hkv
  | cons row rest ih =>
    intro acc d heq kv hkv
    cases hd : dictGet row "entity_id" with
    | none =>
      simp [loadEntitiesAux, parseEntityRow, hd] at heq
    | some v =>
      simp only [loadEntitiesAux, parseEntityRow, hd] at heq
      rcases ih _ d heq kv hkv with hin | ⟨r, hr, hfr⟩
      · rcases mem_dictInsert _ _ _ kv hin with h2 | h2
        · exact Or.inl h2
        · refine Or.inr ⟨row, List.mem_cons_self _ _, ?_⟩
          rw [h2]
          refine ⟨by rw [hd]; rfl, by rw [hd]; rfl, rfl, rfl⟩
      · exact Or.inr ⟨r, List.mem_cons_of_mem _ hr, hfr⟩

/-- Every participant stored by the participant loader originates from
some input row according to the spec's field contract. -/
theorem loadParticipantsAux_ok (rows : List Row) :
    ∀ acc d, loadParticipantsAux acc rows = .ok d →
      ∀ g ∈ d, ∀ p ∈ g.2,
        (∃ g2 ∈ acc, p ∈ g2.2) ∨ ∃ r ∈ rows, participantFromRow p r := by
  induction rows with
  | nil =>
    intro acc d heq g hg p hp
    simp only [loadParticipantsAux, Except.ok.injEq] at heq
    subst heq
    exact Or.inl ⟨g, hg, hp⟩
  | cons row rest ih =>
    intro acc d heq g hg p hp
    cases hd : dictGet row "entity_id" with
    | none =>
      simp [loadParticipantsAux, parseParticipantRow, hd] at heq
    | some v =>
      simp only [loadParticipantsAux, parseParticipantRow, hd] at heq
      rcases ih _ d heq g hg p hp with hin | ⟨r, hr, hfr⟩
      · obtain ⟨g2, hg2, hp2⟩ := hin
        rcases mem_dictAppend _ _ _ g2 hg2 p hp2 with h2 | h2
        · obtain ⟨g3, hg3, hp3⟩ := h2
          exact Or.inl ⟨g3, hg3, hp3⟩
        · refine Or.inr ⟨row, List.mem_cons_self _ _, ?_⟩
          rw [h2]
          exact ⟨by rw [hd]; rfl, rfl, rfl⟩
      · exact Or.inr ⟨r, List.mem_cons_of_mem _ hr, hfr⟩

/-- C9: both loaders fail with the fatal `MissingKeyError` exactly when a
row lacks the `entity_id` column — and that is the only error they can
produce, so a run aborts before rendering whenever a key is missing and
only then; on success, every stored record originates from an input row
with all string fields stripped of surrounding whitespace and every other
absent field defaulted to the empty string. -/
theorem loaders_contract (erows prows : List Row) :
    (load_entities erows = .error (.missingKey "entity_id") ↔
      ∃ r ∈ erows, dictGet r "entity_id" = none) ∧
    (load_participants prows = .error (.missingKey "entity_id") ↔
      ∃ r ∈ prows, dictGet r "entity_id" = none) ∧
    ((∀ r ∈ erows, dictGet r "entity_id" ≠ none) →
      ∃ d, load_entities erows = .ok d) ∧
    ((∀ r ∈ prows, dictGet r "entity_id" ≠ none) →
      ∃ d, load_participants prows = .ok d) ∧
    (∀ d, load_entities erows = .ok d →
      ∀ kv ∈ d, ∃ r ∈ erows, entityEntryFromRow kv r) ∧
    (∀ d, load_participants prows = .ok d →
      ∀ g ∈ d, ∀ p ∈ g.2, ∃ r ∈ prows, participantFromRow p r) := by
  refine ⟨loadEntitiesAux_error erows [], loadParticipantsAux_error prows [],
    ?_, ?_, ?_, ?_⟩
  · intro hall
    cases h : load_entities erows with
    | ok d => exact ⟨d, rfl⟩
    | error e =>
      have he := loadEntitiesAux_error_shape erows [] e h
      subst he
      obtain ⟨r, hr, hnone⟩ := (loadEntitiesAux_error erows []).1 h
      exact absurd hnone (hall r hr)
  · intro hall
    cases h : load_participants prows with
    | ok d => exact ⟨d, rfl⟩
    | error e =>
      have he := loadParticipantsAux_error_shape prows [] e h
      subst he
      obtain ⟨r, hr, hnone⟩ := (loadParticipantsAux_error prows []).1 h
      exact absurd hnone (hall r hr)
  · intro d hd kv hkv
    rcases loadEntitiesAux_ok erows [] d hd kv hkv with hin | h
    · simp at hin
    · exact h
  · intro d hd g hg p hp
    rcases loadParticipantsAux_ok prows [] d hd g hg p hp with hin | h
    · obtain ⟨g2, hg2, _⟩ := hin
      simp at hg2
    · exact h

/-- Witness for C9: a participant row without `entity_id` is fatal, and a
loaded entity record comes from its row with fields stripped
(`" E1 "` stored under key `"E1"`, display name `"Alpha"`). -/
theorem loaders_contract_witness :
    load_participants [[("entity_type", "X")]] =
      .error (.missingKey "entity_id") ∧
    ∃ r ∈ [[("entity_id", " E1 "), ("team_name", " Alpha ")]],
      entityEntryFromRow ("E1", ⟨"", "Alpha"⟩) r := by
  constructor
  · exact (loaders_contract [[("entity_id", " E1 "), ("team_name", " Alpha ")]]
      [[("entity_type", "X")]]).2.1.mpr
      ⟨[("entity_type", "X")], by decide, by decide⟩
  · exact (loaders_contract [[("entity_id", " E1 "), ("team_name", " Alpha ")]]
      [[("entity_type", "X")]]).2.2.2.2.1
      [("E1", ⟨"", "Alpha"⟩)] rfl ("E1", ⟨"", "Alpha"⟩) (by decide)
